import Mathlib

/-!
Verification of the hw4 notebook pipeline (`src/notebooks/hw4.py`).

The notebook is a straight-line Spark/MLflow script: load a CSV, cast the
`points` and `position` columns, randomly split 80/20 with seed 42, fit a
random-forest regressor, evaluate it, and log parameters, metrics and two
CSV artifacts under an MLflow run.

We shallowly embed the tabular data model and each library operation the
script invokes.  Operations implemented by external libraries (Spark's
`cast`, `randomSplit`, the regression evaluator, MLflow's run scope) are
modelled from their contracts as stated in the specification; everything
the script itself authors (column names, literals, the order of logging
calls) is transcribed from the source.
-/

namespace HW4

/-- A cell value of a dataframe: raw text, a double (modelled as `ℚ`),
an integer, an assembled feature vector, or SQL null. -/
inductive Value where
  | str : String → Value
  | dbl : ℚ → Value
  | int : ℤ → Value
  | vec : List ℚ → Value
  | null : Value
deriving DecidableEq, Repr

/-- A row is an association list from column name to cell value,
in column order. -/
abbrev Row := List (String × Value)

/-- A dataframe: a schema (column names) and a list of rows. -/
structure DataFrame where
  cols : List String
  rows : List Row
deriving DecidableEq, Repr

/-- Accumulate a decimal digit string; fails on a non-digit character. -/
def parseDigitsAux : List Char → Nat → Option Nat
  | [], acc => some acc
  | c :: cs, acc =>
      if c.isDigit then parseDigitsAux cs (10 * acc + (c.toNat - 48)) else none

/-- Parse a non-empty string of decimal digits as a natural number. -/
def parseNatStr (cs : List Char) : Option Nat :=
  if cs.isEmpty then none else parseDigitsAux cs 0

/-- Parse an unsigned decimal numeral, optionally with a fractional part. -/
def parseUnsignedRat (cs : List Char) : Option ℚ :=
  match cs.splitOn '.' with
  | [ip] => (parseNatStr ip).map (fun n => (n : ℚ))
  | [ip, fp] =>
      match parseNatStr ip, parseNatStr fp with
      | some i, some f => some ((i : ℚ) + (f : ℚ) / ((10 : ℚ) ^ fp.length))
      | _, _ => none
  | _ => none

/-- Parse an optionally signed decimal numeral as a rational. -/
def parseRat (s : String) : Option ℚ :=
  match s.toList with
  | '-' :: cs => (parseUnsignedRat cs).map (fun q => -q)
  | cs => parseUnsignedRat cs

/-- Parse an optionally signed digit string as an integer. -/
def parseIntStr (s : String) : Option ℤ :=
  match s.toList with
  | '-' :: cs => (parseNatStr cs).map (fun n => -(n : ℤ))
  | cs => (parseNatStr cs).map (fun n => (n : ℤ))

/-- Modelled from the spec: Spark's cast of a cell to `DoubleType`
(line 33 of hw4.py, `df['points'].cast(DoubleType())`).  Per the spec the
Preprocessor "fails if values are non-numeric (propagated as a parse error
from the underlying library)". -/
def castDouble : Value → Except String Value
  | .str s =>
      match parseRat s with
      | some q => .ok (.dbl q)
      | none => .error s
  | .dbl q => .ok (.dbl q)
  | .int n => .ok (.dbl (n : ℚ))
  | .vec _ => .error "vector"
  | .null => .ok .null

/-- Modelled from the spec: Spark's cast of a cell to `IntegerType`
(line 33 of hw4.py, `df['position'].cast(IntegerType())`). -/
def castInt : Value → Except String Value
  | .str s =>
      match parseIntStr s with
      | some n => .ok (.int n)
      | none => .error s
  | .dbl q => if q.den = 1 then .ok (.int q.num) else .error "fraction"
  | .int n => .ok (.int n)
  | .vec _ => .error "vector"
  | .null => .ok .null

/-- Apply a cast to the single entry of a row whose key is `c`,
leaving other entries unchanged. -/
def castEntry (c : String) (f : Value → Except String Value)
    (e : String × Value) : Except String (String × Value) :=
  if e.1 = c then (f e.2).map (fun w => (e.1, w)) else .ok e

/-- Apply a column cast across one row, failing on the first bad cell. -/
def castRow (c : String) (f : Value → Except String Value) :
    Row → Except String Row
  | [] => .ok []
  | e :: es =>
      match castEntry c f e, castRow c f es with
      | .ok e', .ok es' => .ok (e' :: es')
      | .error m, _ => .error m
      | .ok _, .error m => .error m

/-- Apply a column cast across all rows, failing on the first bad cell. -/
def castRows (c : String) (f : Value → Except String Value) :
    List Row → Except String (List Row)
  | [] => .ok []
  | r :: rs =>
      match castRow c f r, castRows c f rs with
      | .ok r', .ok rs' => .ok (r' :: rs')
      | .error m, _ => .error m
      | .ok _, .error m => .error m

/-- `df.withColumn(c, df[c].cast(...))`: recompute column `c` by casting,
keeping the schema. -/
def withColumnCast (c : String) (f : Value → Except String Value)
    (df : DataFrame) : Except String DataFrame :=
  match castRows c f df.rows with
  | .ok rows => .ok ⟨df.cols, rows⟩
  | .error m => .error m

/-- The Preprocessor (line 33 of hw4.py): cast `points` to double, then
`position` to integer. -/
def preprocess (df : DataFrame) : Except String DataFrame :=
  match withColumnCast "points" castDouble df with
  | .ok df1 => withColumnCast "position" castInt df1
  | .error m => .error m

/-- Project one row onto the listed columns, in the listed order
(`df.select([...])`). -/
def projectRow (cs : List String) (r : Row) : Row :=
  cs.filterMap (fun c => (r.lookup c).map (fun v => (c, v)))

/-- `df.select([...])` (line 46 of hw4.py): keep exactly the listed
columns. -/
def select (cs : List String) (df : DataFrame) : DataFrame :=
  ⟨cs, df.rows.map (projectRow cs)⟩

/-- Modelled from the spec: one step of the seeded pseudo-random stream
backing Spark's `randomSplit` (the library's sampler is external; only
determinism of a seeded stream matters to the spec). -/
def nextRand (s : Nat) : Nat :=
  (s * 6364136223846793005 + 1442695040888963407) % 2 ^ 64

/-- Modelled from the spec: the uniform draw in `[0, 1)` produced from a
stream state. -/
def randVal (s : Nat) : ℚ :=
  ((s % 2 ^ 32 : ℕ) : ℚ) / ((2 : ℚ) ^ 32)

/-- Modelled from the spec: `randomSplit` sends each row to the first
output when its seeded draw falls below the normalized first weight, and
to the second output otherwise. -/
def splitRows (seed : Nat) (th : ℚ) : List Row → List Row × List Row
  | [] => ([], [])
  | r :: rs =>
      if randVal (nextRand seed) < th then
        (r :: (splitRows (nextRand seed) th rs).1, (splitRows (nextRand seed) th rs).2)
      else
        ((splitRows (nextRand seed) th rs).1, r :: (splitRows (nextRand seed) th rs).2)

/-- Modelled from the spec: `df.randomSplit([w1, w2], seed)` (line 46 of
hw4.py) — a deterministic function of the table, the weights and the
seed, returning two tables with the input's schema. -/
def randomSplit (df : DataFrame) (w1 w2 : ℚ) (seed : Nat) :
    DataFrame × DataFrame :=
  let p := splitRows seed (w1 / (w1 + w2)) df.rows
  (⟨df.cols, p.1⟩, ⟨df.cols, p.2⟩)

/-- Line 46 of hw4.py:
`df.select(['position','points']).randomSplit([.8, .2], seed=42)`. -/
def scriptSplit (df : DataFrame) : DataFrame × DataFrame :=
  randomSplit (select ["position", "points"] df) (8 / 10) (2 / 10) 42

/-- Append a computed column to a dataframe (how the library transformers
extend a table). -/
def addColumn (c : String) (f : Row → Value) (df : DataFrame) : DataFrame :=
  ⟨df.cols ++ [c], df.rows.map (fun r => r ++ [(c, f r)])⟩

/-- Extract a numeric cell as a rational, if it is numeric. -/
def valToQ : Value → Option ℚ
  | .dbl q => some q
  | .int n => some (n : ℚ)
  | _ => none

/-- `VectorAssembler(inputCols=['position'], outputCol='features')`
(lines 65 and 95 of hw4.py): pack the `position` cell into a
1-dimensional feature vector. -/
def vecTransform (df : DataFrame) : DataFrame :=
  addColumn "features"
    (fun r =>
      match (r.lookup "position").bind valToQ with
      | some q => .vec [q]
      | none => .null) df

/-- `rfModel.transform` (line 107 of hw4.py): add a `prediction` column
computed by the fitted model's prediction function (the forest itself is
library-internal, so the function is a parameter). -/
def rfTransform (predict : ℚ → ℚ) (df : DataFrame) : DataFrame :=
  addColumn "prediction"
    (fun r =>
      match r.lookup "features" with
      | some (.vec [q]) => .dbl (predict q)
      | _ => .null) df

/-- Lines 134–135 of hw4.py: the table written to `predictions.csv`,
`predDF.select("position", "points", "prediction")`. -/
def predictionsTable (predict : ℚ → ℚ) (testDF : DataFrame) : DataFrame :=
  select ["position", "points", "prediction"] (rfTransform predict (vecTransform testDF))

/-- Lines 129–131 of hw4.py: the table written to `importance.csv`,
`pd.DataFrame(rfModel.featureImportances.toArray(), columns=["importance"])`. -/
def importanceTable (importances : List ℚ) : DataFrame :=
  ⟨["importance"], importances.map (fun q => [("importance", .dbl q)])⟩

/-- The assembler's input columns (lines 65 and 95 of hw4.py). -/
def inputCols : List String := ["position"]

/-- Sum of squared errors of (label, prediction) pairs. -/
def squaredErrors (ps : List (ℚ × ℚ)) : ℚ :=
  (ps.map (fun p => (p.1 - p.2) ^ 2)).sum

/-- Mean squared error. -/
def mse (ps : List (ℚ × ℚ)) : ℚ :=
  squaredErrors ps / (ps.length : ℚ)

/-- Mean absolute error. -/
def mae (ps : List (ℚ × ℚ)) : ℚ :=
  (ps.map (fun p => |p.1 - p.2|)).sum / (ps.length : ℚ)

/-- Coefficient of determination. -/
def r2 (ps : List (ℚ × ℚ)) : ℚ :=
  let m := (ps.map Prod.fst).sum / (ps.length : ℚ)
  1 - squaredErrors ps / ((ps.map (fun p => (p.1 - m) ^ 2)).sum)

/-- Modelled from the spec: `RegressionEvaluator.evaluate` (lines
110–126 of hw4.py) — a single scalar per requested metric name, with
`rmse` the square root of the mean squared error. -/
noncomputable def evalMetric (m : String) (ps : List (ℚ × ℚ)) : ℝ :=
  if m = "mse" then ((mse ps : ℚ) : ℝ)
  else if m = "rmse" then Real.sqrt ((mse ps : ℚ) : ℝ)
  else if m = "mae" then ((mae ps : ℚ) : ℝ)
  else if m = "r2" then ((r2 ps : ℚ) : ℝ)
  else 0

/-- Hyperparameters passed to a `RandomForestRegressor` constructor;
`maxDepth = none` means the argument was not given. -/
structure RFParams where
  numTrees : Nat
  maxDepth : Option Nat
deriving DecidableEq, Repr

/-- Line 66 of hw4.py:
`RandomForestRegressor(featuresCol="features", labelCol="points", numTrees=5)`. -/
def pipelineFit : RFParams := ⟨5, none⟩

/-- Line 99 of hw4.py: `RandomForestRegressor(featuresCol="features",
labelCol="points", numTrees=num_trees, maxDepth=max_depth)` with
`num_trees = 10`, `max_depth = 5` (lines 88–89). -/
def runFit : RFParams := ⟨10, some 5⟩

/-- The two random-forest fits the script performs, in program order
(lines 68 and 101 of hw4.py). -/
def scriptFits : List RFParams := [pipelineFit, runFit]

/-- An MLflow tracking event, or a print to standard output, as emitted
by the run block (lines 86–141 of hw4.py). -/
inductive MEvent where
  | startRun : String → MEvent
  | logParam : String → ℤ → MEvent
  | logMetric : String → ℚ → MEvent
  | logModel : String → MEvent
  | logArtifact : String → MEvent
  | printOut : String → MEvent
  | endRun : MEvent
deriving DecidableEq, Repr

/-- The record MLflow accumulates for one run: parameter bag, metric bag,
logged models and artifact paths. -/
structure RunRecord where
  params : List (String × ℤ)
  metrics : List (String × ℚ)
  models : List String
  artifacts : List String
deriving DecidableEq, Repr

/-- The empty run record created when a run starts. -/
def emptyRecord : RunRecord := ⟨[], [], [], []⟩

/-- Accumulate one logging event into an open run's record; prints do not
touch the record. -/
def applyLog (rec : RunRecord) : MEvent → RunRecord
  | .logParam k v => { rec with params := rec.params ++ [(k, v)] }
  | .logMetric k v => { rec with metrics := rec.metrics ++ [(k, v)] }
  | .logModel m => { rec with models := rec.models ++ [m] }
  | .logArtifact a => { rec with artifacts := rec.artifacts ++ [a] }
  | _ => rec

/-- Modelled from the spec: the lifecycle state of the experiment run —
not yet created, open (mutable), or finalized at scope exit (sealed,
never mutated afterwards). -/
inductive RunState where
  | noRun : RunState
  | active : RunRecord → RunState
  | finalized : RunRecord → RunState
deriving DecidableEq, Repr

/-- Modelled from the spec: how the tracking store reacts to one event.
`startRun` creates the record, logging calls mutate an open record,
`endRun` seals it, and a sealed record is never mutated. -/
def step : RunState → MEvent → RunState
  | .noRun, .startRun _ => .active emptyRecord
  | .noRun, _ => .noRun
  | .active rec, .endRun => .finalized rec
  | .active rec, .startRun _ => .active rec
  | .active rec, e => .active (applyLog rec e)
  | .finalized rec, _ => .finalized rec

/-- The `with mlflow.start_run(run_name=...) as run:` scope (line 86 of
hw4.py): the trace it emits is the start event, the body's events, then
the finalizing end event on scope exit. -/
def withRun (name : String) (body : List MEvent) : List MEvent :=
  .startRun name :: body ++ [.endRun]

/-- The events emitted inside the run block, in source order (lines
86–141 of hw4.py); the metric values, run id and experiment id are
parameters since they are produced at run time. -/
def scriptRunBody (r2v maev rmsev msev : ℚ) (runID experimentID : String) :
    List MEvent :=
  [ .logParam "num_trees" 10,
    .logParam "max_depth" 5,
    .logModel "random-forest-model",
    .printOut "  r2: ", .logMetric "r2" r2v,
    .printOut "  mae: ", .logMetric "mae" maev,
    .printOut "  rmse: ", .logMetric "rmse" rmsev,
    .printOut "  mse: ", .logMetric "mse" msev,
    .logArtifact "importance.csv",
    .logArtifact "predictions.csv",
    .printOut ("Inside MLflow Run with run_id " ++ runID ++
      " and experiment_id " ++ experimentID) ]

/-- The full event trace of the experiment-run section of the script. -/
def scriptRunTrace (r2v maev rmsev msev : ℚ) (runID experimentID : String) :
    List MEvent :=
  withRun "Saira RF numTrees=10,maxDepth=5"
    (scriptRunBody r2v maev rmsev msev runID experimentID)

/-- The lines a trace prints to standard output. -/
def outputs (tr : List MEvent) : List String :=
  tr.filterMap (fun e => match e with | .printOut s => some s | _ => none)

/-- How one cell of the raw table relates to the corresponding cell after
preprocessing: keys agree, textual `points` cells become the double they
denote, textual `position` cells become the integer they denote, and every
other column's cells are unchanged. -/
def entryRel (e e' : String × Value) : Prop :=
  e'.1 = e.1 ∧
  (e.1 = "points" → ∀ s, e.2 = Value.str s →
    ∃ q, parseRat s = some q ∧ e'.2 = Value.dbl q) ∧
  (e.1 = "position" → ∀ s, e.2 = Value.str s →
    ∃ n, parseIntStr s = some n ∧ e'.2 = Value.int n) ∧
  (e.1 ≠ "points" → e.1 ≠ "position" → e'.2 = e.2)

theorem foldl_step_active (body : List MEvent) :
    ∀ rec, MEvent.endRun ∉ body →
      List.foldl step (RunState.active rec) body =
        RunState.active (List.foldl applyLog rec body) := by
  induction body with
  | nil => intro rec _; rfl
  | cons e es ih =>
      intro rec h
      have he : e ≠ MEvent.endRun := fun hc => h (hc ▸ List.mem_cons_self e es)
      have hes : MEvent.endRun ∉ es := fun hc => h (List.mem_cons_of_mem e hc)
      have hstep : step (RunState.active rec) e = RunState.active (applyLog rec e) := by
        cases e with
        | startRun s => rfl
        | logParam k v => rfl
        | logMetric k v => rfl
        | logModel m => rfl
        | logArtifact a => rfl
        | printOut s => rfl
        | endRun => exact absurd rfl he
      simp only [List.foldl_cons, hstep]
      exact ih (applyLog rec e) hes

theorem foldl_step_finalized (es : List MEvent) :
    ∀ rec, List.foldl step (RunState.finalized rec) es = RunState.finalized rec := by
  induction es with
  | nil => intro rec; rfl
  | cons e es ih =>
      intro rec
      have hstep : step (RunState.finalized rec) e = RunState.finalized rec := rfl
      simp only [List.foldl_cons, hstep]
      exact ih rec

/-- C2 counterexample: not every random-forest fit in the script uses
numTrees=10 and maxDepth=5 — the pipeline fit on line 66 uses
numTrees=5 and leaves maxDepth unset. -/
theorem not_all_fits_ten_five :
    ¬ ∀ p ∈ scriptFits, p.numTrees = 10 ∧ p.maxDepth = some 5 := by
  intro h
  have := (h pipelineFit (List.mem_cons_self _ _)).1
  simp [pipelineFit] at this

/-- C2 (amended): the random-forest fit inside the mlflow run uses
numTrees=10 and maxDepth=5; the only other fit, the earlier pipeline fit,
uses numTrees=5 with maxDepth left at the library default. -/
theorem script_fit_params :
    scriptFits = [pipelineFit, runFit] ∧
    runFit.numTrees = 10 ∧ runFit.maxDepth = some 5 ∧
    pipelineFit.numTrees = 5 ∧ pipelineFit.maxDepth = none := by
  refine ⟨rfl, rfl, rfl, rfl, rfl⟩

/-- C3: the Splitter is deterministic — running the script's split (seed
42, ratios 0.8/0.2) on equal input tables yields equal train/test
partitions. -/
theorem scriptSplit_deterministic (df df' : DataFrame) (h : df = df') :
    scriptSplit df = scriptSplit df' := by
  rw [h]

theorem scriptSplit_deterministic_witness :
    scriptSplit ⟨["position", "points"], []⟩ = scriptSplit ⟨["position", "points"], []⟩ :=
  scriptSplit_deterministic _ _ rfl

/-- C5: on any fixed list of (label, prediction) pairs, the evaluator's
RMSE is non-negative and equals the square root of its MSE. -/
theorem rmse_sqrt_mse (ps : List (ℚ × ℚ)) :
    0 ≤ evalMetric "rmse" ps ∧
    evalMetric "rmse" ps = Real.sqrt (evalMetric "mse" ps) := by
  constructor
  · simp only [evalMetric]
    norm_num
    exact Real.sqrt_nonneg _
  · simp only [evalMetric]
    norm_num
    intro h
    exact absurd h (by decide)

/-- C8: the run scope creates the run record on entry and finalizes it on
exit, whatever logging calls the body makes (as long as the body itself
does not end the run); the finalized record holds exactly the body's
logged data, and a finalized record is never mutated by later events. -/
theorem run_scope_lifecycle (name : String) (body : List MEvent)
    (h : MEvent.endRun ∉ body) :
    List.foldl step RunState.noRun (withRun name body) =
      RunState.finalized (List.foldl applyLog emptyRecord body) ∧
    ∀ rec es, List.foldl step (RunState.finalized rec) es = RunState.finalized rec := by
  constructor
  · have h1 : List.foldl step RunState.noRun (withRun name body) =
        List.foldl step (RunState.active emptyRecord) (body ++ [MEvent.endRun]) := rfl
    rw [h1, List.foldl_append, foldl_step_active body emptyRecord h]
    rfl
  · intro rec es
    exact foldl_step_finalized es rec

theorem run_scope_lifecycle_witness :
    List.foldl step RunState.noRun (withRun "r" [MEvent.logParam "a" 1]) =
      RunState.finalized (List.foldl applyLog emptyRecord [MEvent.logParam "a" 1]) ∧
    ∀ rec es, List.foldl step (RunState.finalized rec) es = RunState.finalized rec :=
  run_scope_lifecycle "r" [MEvent.logParam "a" 1] (by simp)

/-- C9: replaying the script's run block against the tracking-store
semantics yields a finalized record holding exactly the parameters
`num_trees` and `max_depth`, exactly the metrics `r2`, `mae`, `rmse`,
`mse`, the one logged model and the two CSV artifacts; and the line
naming the generated run id and experiment id is among the printed
outputs. -/
theorem run_record_contents (r2v maev rmsev msev : ℚ) (runID experimentID : String) :
    List.foldl step RunState.noRun (scriptRunTrace r2v maev rmsev msev runID experimentID) =
      RunState.finalized
        ⟨[("num_trees", 10), ("max_depth", 5)],
         [("r2", r2v), ("mae", maev), ("rmse", rmsev), ("mse", msev)],
         ["random-forest-model"],
         ["importance.csv", "predictions.csv"]⟩ ∧
    ("Inside MLflow Run with run_id " ++ runID ++ " and experiment_id " ++ experimentID) ∈
      outputs (scriptRunTrace r2v maev rmsev msev runID experimentID) := by
  constructor
  · rfl
  · simp [scriptRunTrace, withRun, scriptRunBody, outputs]

theorem splitRows_fst_sublist (rs : List Row) :
    ∀ s th, (splitRows s th rs).1.Sublist rs := by
  induction rs with
  | nil => intro s th; simp [splitRows]
  | cons r rs ih =>
      intro s th
      simp only [splitRows]
      by_cases h : randVal (nextRand s) < th
      · simp only [if_pos h]
        exact (ih (nextRand s) th).cons₂ r
      · simp only [if_neg h]
        exact (ih (nextRand s) th).cons r

theorem splitRows_snd_sublist (rs : List Row) :
    ∀ s th, (splitRows s th rs).2.Sublist rs := by
  induction rs with
  | nil => intro s th; simp [splitRows]
  | cons r rs ih =>
      intro s th
      simp only [splitRows]
      by_cases h : randVal (nextRand s) < th
      · simp only [if_pos h]
        exact (ih (nextRand s) th).cons r
      · simp only [if_neg h]
        exact (ih (nextRand s) th).cons₂ r

theorem splitRows_perm (rs : List Row) :
    ∀ s th, ((splitRows s th rs).1 ++ (splitRows s th rs).2).Perm rs := by
  induction rs with
  | nil => intro s th; simp [splitRows]
  | cons r rs ih =>
      intro s th
      simp only [splitRows]
      by_cases h : randVal (nextRand s) < th
      · simp only [if_pos h, List.cons_append]
        exact (ih (nextRand s) th).cons r
      · simp only [if_neg h]
        exact List.perm_middle.trans ((ih (nextRand s) th).cons r)

/-- C4: the two tables the Splitter returns partition the (projected)
input rows — each side is a sublist of the input, together they are a
permutation of it (so every row goes to exactly one side), and their row
counts sum to the input's row count. -/
theorem scriptSplit_partition (df : DataFrame) :
    (scriptSplit df).1.rows.Sublist (select ["position", "points"] df).rows ∧
    (scriptSplit df).2.rows.Sublist (select ["position", "points"] df).rows ∧
    ((scriptSplit df).1.rows ++ (scriptSplit df).2.rows).Perm
      (select ["position", "points"] df).rows ∧
    (scriptSplit df).1.rows.length + (scriptSplit df).2.rows.length =
      (select ["position", "points"] df).rows.length := by
  refine ⟨splitRows_fst_sublist _ _ _, splitRows_snd_sublist _ _ _,
    splitRows_perm _ _ _, ?_⟩
  have hp := (splitRows_perm (select ["position", "points"] df).rows
    42 ((8 / 10 : ℚ) / (8 / 10 + 2 / 10))).length_eq
  simpa [List.length_append] using hp

theorem projectRow_key_mem (cs : List String) (r : Row) (e : String × Value)
    (h : e ∈ projectRow cs r) : e.1 ∈ cs := by
  simp only [projectRow, List.mem_filterMap] at h
  obtain ⟨c, hc, hmap⟩ := h
  obtain ⟨v, _, heq⟩ := Option.map_eq_some'.mp hmap
  cases heq
  exact hc

/-- C10: both outputs of the Splitter carry exactly the schema
`position`, `points` — every other column of the loaded CSV was projected
away before the split, so no train or test row holds any other key. -/
theorem split_columns_projected (df : DataFrame) :
    (scriptSplit df).1.cols = ["position", "points"] ∧
    (scriptSplit df).2.cols = ["position", "points"] ∧
    (∀ r ∈ (scriptSplit df).1.rows, ∀ e ∈ r,
      e.1 ∈ (["position", "points"] : List String)) ∧
    (∀ r ∈ (scriptSplit df).2.rows, ∀ e ∈ r,
      e.1 ∈ (["position", "points"] : List String)) := by
  refine ⟨rfl, rfl, ?_, ?_⟩
  · intro r hr e he
    have hr' : r ∈ (select ["position", "points"] df).rows :=
      (splitRows_fst_sublist _ _ _).subset hr
    simp only [select, List.mem_map] at hr'
    obtain ⟨r0, _, hr0⟩ := hr'
    exact projectRow_key_mem _ r0 e (hr0 ▸ he)
  · intro r hr e he
    have hr' : r ∈ (select ["position", "points"] df).rows :=
      (splitRows_snd_sublist _ _ _).subset hr
    simp only [select, List.mem_map] at hr'
    obtain ⟨r0, _, hr0⟩ := hr'
    exact projectRow_key_mem _ r0 e (hr0 ▸ he)

theorem lookup_of_mem_keys (r : Row) (k : String) (h : k ∈ r.map Prod.fst) :
    ∃ v, r.lookup k = some v := by
  induction r with
  | nil => simp at h
  | cons e es ih =>
      by_cases hk : k = e.1
      · exact ⟨e.2, by simp [List.lookup, hk]⟩
      · have hm : k ∈ es.map Prod.fst := by
          simp only [List.map_cons, List.mem_cons] at h
          exact h.resolve_left hk
        obtain ⟨v, hv⟩ := ih hm
        have hbeq : (k == e.1) = false := beq_eq_false_iff_ne.mpr hk
        exact ⟨v, by simp [List.lookup, hbeq, hv]⟩

theorem projectRow_keys (cs : List String) (r : Row)
    (h : ∀ c ∈ cs, ∃ v, r.lookup c = some v) :
    (projectRow cs r).map Prod.fst = cs := by
  induction cs with
  | nil => rfl
  | cons c cs ih =>
      obtain ⟨v, hv⟩ := h c (List.mem_cons_self c cs)
      have hrest := ih (fun c' hc' => h c' (List.mem_cons_of_mem c hc'))
      simp only [projectRow, List.filterMap_cons, hv, Option.map_some'] at hrest ⊢
      simp [hrest]

/-- C6: the table written to `predictions.csv` has exactly the columns
`position`, `points`, `prediction`, one row per test-set row, and every
row carries exactly those three keys. -/
theorem predictions_csv_shape (predict : ℚ → ℚ) (testDF : DataFrame)
    (h : ∀ r ∈ testDF.rows, r.map Prod.fst = ["position", "points"]) :
    (predictionsTable predict testDF).cols = ["position", "points", "prediction"] ∧
    (predictionsTable predict testDF).rows.length = testDF.rows.length ∧
    ∀ r ∈ (predictionsTable predict testDF).rows,
      r.map Prod.fst = ["position", "points", "prediction"] := by
  refine ⟨rfl, ?_, ?_⟩
  · simp [predictionsTable, select, rfTransform, vecTransform, addColumn]
  · intro r' hr'
    simp only [predictionsTable, select, rfTransform, vecTransform, addColumn,
      List.map_map, List.mem_map, Function.comp] at hr'
    obtain ⟨r, hr, hproj⟩ := hr'
    subst hproj
    apply projectRow_keys
    intro c hc
    apply lookup_of_mem_keys
    simp only [List.map_append, h r hr]
    fin_cases hc <;> simp

theorem predictions_csv_shape_witness :
    (∀ r ∈ (DataFrame.mk ["position", "points"]
        [[("position", Value.int 1), ("points", Value.dbl 2)]]).rows,
      r.map Prod.fst = ["position", "points"]) ∧
    (predictionsTable (fun q => q) (DataFrame.mk ["position", "points"]
        [[("position", Value.int 1), ("points", Value.dbl 2)]])).rows.length =
      (DataFrame.mk ["position", "points"]
        [[("position", Value.int 1), ("points", Value.dbl 2)]]).rows.length :=
  ⟨by decide, (predictions_csv_shape (fun q => q) _ (by decide)).2.1⟩

/-- C7: the table written to `importance.csv` has the single column
`importance` and one row per input feature — hence exactly one row, the
assembler's input being the single column `position`. -/
theorem importance_csv_shape (importances : List ℚ)
    (h : importances.length = inputCols.length) :
    (importanceTable importances).cols = ["importance"] ∧
    (importanceTable importances).rows.length = importances.length ∧
    (importanceTable importances).rows.length = 1 ∧
    ∀ r ∈ (importanceTable importances).rows, r.map Prod.fst = ["importance"] := by
  refine ⟨rfl, by simp [importanceTable], ?_, ?_⟩
  · simp [importanceTable, h, inputCols]
  · intro r hr
    simp only [importanceTable, List.mem_map] at hr
    obtain ⟨q, _, hq⟩ := hr
    subst hq
    rfl

theorem importance_csv_shape_witness :
    ([(1 : ℚ)] : List ℚ).length = inputCols.length ∧
    (importanceTable [(1 : ℚ)]).rows.length = 1 :=
  ⟨rfl, (importance_csv_shape [(1 : ℚ)] rfl).2.2.1⟩

theorem castRow_error_of_mem (c : String) (f : Value → Except String Value)
    (r : Row) (h : ∃ e ∈ r, ∃ m, castEntry c f e = .error m) :
    ∃ m', castRow c f r = .error m' := by
  induction r with
  | nil => obtain ⟨e, he, _⟩ := h; simp at he
  | cons a as ih =>
      obtain ⟨e, he, m, herr⟩ := h
      rcases List.mem_cons.mp he with h1 | h1
      · subst h1
        cases h2 : castRow c f as with
        | error m2 => exact ⟨m, by simp [castRow, herr, h2]⟩
        | ok rs2 => exact ⟨m, by simp [castRow, herr, h2]⟩
      · obtain ⟨m', hm'⟩ := ih ⟨e, h1, m, herr⟩
        cases h2 : castEntry c f a with
        | error m1 => exact ⟨m1, by simp [castRow, h2, hm']⟩
        | ok e1 => exact ⟨m', by simp [castRow, h2, hm']⟩

theorem castRows_error_of_mem (c : String) (f : Value → Except String Value)
    (rs : List Row) (h : ∃ r ∈ rs, ∃ m, castRow c f r = .error m) :
    ∃ m', castRows c f rs = .error m' := by
  induction rs with
  | nil => obtain ⟨r, hr, _⟩ := h; simp at hr
  | cons a as ih =>
      obtain ⟨r, hr, m, herr⟩ := h
      rcases List.mem_cons.mp hr with h1 | h1
      · subst h1
        cases h2 : castRows c f as with
        | error m2 => exact ⟨m, by simp [castRows, herr, h2]⟩
        | ok rs2 => exact ⟨m, by simp [castRows, herr, h2]⟩
      · obtain ⟨m', hm'⟩ := ih ⟨r, h1, m, herr⟩
        cases h2 : castRow c f a with
        | error m1 => exact ⟨m1, by simp [castRows, h2, hm']⟩
        | ok r1 => exact ⟨m', by simp [castRows, h2, hm']⟩

theorem castRow_ok_forall₂ (c : String) (f : Value → Except String Value) :
    ∀ (r r' : Row), castRow c f r = .ok r' →
      List.Forall₂ (fun e e' => castEntry c f e = .ok e') r r' := by
  intro r
  induction r with
  | nil =>
      intro r' h
      simp only [castRow] at h
      cases h
      exact List.Forall₂.nil
  | cons a as ih =>
      intro r' h
      cases h1 : castEntry c f a with
      | error m => simp [castRow, h1] at h
      | ok e1 =>
          cases h2 : castRow c f as with
          | error m => simp [castRow, h1, h2] at h
          | ok as1 =>
              simp only [castRow, h1, h2] at h
              cases h
              exact List.Forall₂.cons h1 (ih as1 h2)

theorem castRows_ok_forall₂ (c : String) (f : Value → Except String Value) :
    ∀ (rs rs' : List Row), castRows c f rs = .ok rs' →
      List.Forall₂ (fun r r' => castRow c f r = .ok r') rs rs' := by
  intro rs
  induction rs with
  | nil =>
      intro rs' h
      simp only [castRows] at h
      cases h
      exact List.Forall₂.nil
  | cons a as ih =>
      intro rs' h
      cases h1 : castRow c f a with
      | error m => simp [castRows, h1] at h
      | ok r1 =>
          cases h2 : castRows c f as with
          | error m => simp [castRows, h1, h2] at h
          | ok as1 =>
              simp only [castRows, h1, h2] at h
              cases h
              exact List.Forall₂.cons h1 (ih as1 h2)

theorem castEntry_ok_spec (c : String) (f : Value → Except String Value)
    (e e' : String × Value) (h : castEntry c f e = .ok e') :
    e'.1 = e.1 ∧ (e.1 = c → f e.2 = .ok e'.2) ∧ (e.1 ≠ c → e' = e) := by
  by_cases hc : e.1 = c
  · simp only [castEntry, if_pos hc] at h
    cases hf : f e.2 with
    | error m => rw [hf] at h; simp [Except.map] at h
    | ok w =>
        rw [hf] at h
        simp only [Except.map] at h
        cases h
        exact ⟨rfl, fun _ => rfl, fun hne => absurd hc hne⟩
  · simp only [castEntry, if_neg hc] at h
    cases h
    exact ⟨rfl, fun hk => absurd hk hc, fun _ => rfl⟩

theorem forall₂_mem_left {α β : Type} {R : α → β → Prop} {l : List α} {l' : List β}
    (h : List.Forall₂ R l l') : ∀ a ∈ l, ∃ b ∈ l', R a b := by
  induction h with
  | nil => intro a ha; simp at ha
  | cons hR hrest ih =>
      intro a ha
      rcases List.mem_cons.mp ha with h1 | h1
      · subst h1; exact ⟨_, List.mem_cons_self _ _, hR⟩
      · obtain ⟨b, hb, hRb⟩ := ih a h1
        exact ⟨b, List.mem_cons_of_mem _ hb, hRb⟩

theorem forall₂_comp {α β γ : Type} {R : α → β → Prop} {S : β → γ → Prop}
    {T : α → γ → Prop} (hT : ∀ a b c, R a b → S b c → T a c) :
    ∀ {l₁ : List α} {l₂ : List β} {l₃ : List γ},
      List.Forall₂ R l₁ l₂ → List.Forall₂ S l₂ l₃ → List.Forall₂ T l₁ l₃ := by
  intro l₁ l₂ l₃ h12
  induction h12 generalizing l₃ with
  | nil =>
      intro h23
      cases h23
      exact List.Forall₂.nil
  | cons hR hrest ih =>
      intro h23
      cases h23 with
      | cons hS h23rest => exact List.Forall₂.cons (hT _ _ _ hR hS) (ih h23rest)

theorem preprocess_error_fst {df : DataFrame} {m : String}
    (h : castRows "points" castDouble df.rows = .error m) :
    preprocess df = .error m := by
  simp [preprocess, withColumnCast, h]

theorem preprocess_error_snd {df : DataFrame} {rows1 : List Row} {m : String}
    (h1 : castRows "points" castDouble df.rows = .ok rows1)
    (h2 : castRows "position" castInt rows1 = .error m) :
    preprocess df = .error m := by
  simp [preprocess, withColumnCast, h1, h2]

theorem entryRel_of_casts (e e1 e2 : String × Value)
    (h1 : castEntry "points" castDouble e = .ok e1)
    (h2 : castEntry "position" castInt e1 = .ok e2) :
    entryRel e e2 := by
  have s1 := castEntry_ok_spec _ _ e e1 h1
  have s2 := castEntry_ok_spec _ _ e1 e2 h2
  refine ⟨s2.1.trans s1.1, ?_, ?_, ?_⟩
  · intro hk s hs
    have hf : castDouble e.2 = .ok e1.2 := s1.2.1 hk
    rw [hs] at hf
    cases hq : parseRat s with
    | none => simp [castDouble, hq] at hf
    | some q =>
        simp only [castDouble, hq, Except.ok.injEq] at hf
        have he2 : e2 = e1 := s2.2.2 (by rw [s1.1, hk]; decide)
        exact ⟨q, rfl, by rw [he2, ← hf]⟩
  · intro hk s hs
    have he1 : e1 = e := s1.2.2 (by rw [hk]; decide)
    have hf : castInt e1.2 = .ok e2.2 := s2.2.1 (by rw [he1, hk])
    rw [he1, hs] at hf
    cases hn : parseIntStr s with
    | none => simp [castInt, hn] at hf
    | some n =>
        simp only [castInt, hn, Except.ok.injEq] at hf
        exact ⟨n, rfl, by rw [← hf]⟩
  · intro hp hpos
    have he1 : e1 = e := s1.2.2 hp
    have he2 : e2 = e1 := s2.2.2 (by rw [he1]; exact hpos)
    rw [he2, he1]

/-- C1: applied to any table, the Preprocessor fails with a parse error
whenever some cell of the `points` column is text that does not denote a
double, or some cell of the `position` column is text that does not
denote an integer; and whenever it succeeds, it returns the same table —
same schema, cells related row by row and column by column, with textual
`points` cells now the double they denoted, textual `position` cells now
the integer they denoted, and all other columns untouched. -/
theorem preprocess_cast_spec (df : DataFrame) :
    ((∃ r ∈ df.rows, ∃ e ∈ r,
        (e.1 = "points" ∧ ∃ s, e.2 = Value.str s ∧ parseRat s = none) ∨
        (e.1 = "position" ∧ ∃ s, e.2 = Value.str s ∧ parseIntStr s = none)) →
      ∃ m, preprocess df = .error m) ∧
    (∀ df', preprocess df = .ok df' →
      df'.cols = df.cols ∧ List.Forall₂ (List.Forall₂ entryRel) df.rows df'.rows) := by
  constructor
  · rintro ⟨r, hr, e, he, hbad⟩
    cases h1 : castRows "points" castDouble df.rows with
    | error m => exact ⟨m, preprocess_error_fst h1⟩
    | ok rows1 =>
        rcases hbad with ⟨hkey, s, hstr, hparse⟩ | ⟨hkey, s, hstr, hparse⟩
        · exfalso
          have hce : castEntry "points" castDouble e = .error s := by
            simp [castEntry, hkey, hstr, castDouble, hparse, Except.map]
          obtain ⟨m', hm'⟩ := castRow_error_of_mem _ _ r ⟨e, he, s, hce⟩
          obtain ⟨m'', hm''⟩ := castRows_error_of_mem _ _ df.rows ⟨r, hr, m', hm'⟩
          rw [h1] at hm''
          cases hm''
        · have hforall := castRows_ok_forall₂ _ _ df.rows rows1 h1
          obtain ⟨r', hr', hrowok⟩ := forall₂_mem_left hforall r hr
          have hentry := castRow_ok_forall₂ _ _ r r' hrowok
          obtain ⟨e', he', heok⟩ := forall₂_mem_left hentry e he
          have hspec := castEntry_ok_spec _ _ e e' heok
          have hee : e' = e := hspec.2.2 (by rw [hkey]; decide)
          have hci : castEntry "position" castInt e = .error s := by
            simp [castEntry, hkey, hstr, castInt, hparse, Except.map]
          obtain ⟨m1, hm1⟩ := castRow_error_of_mem _ _ r' ⟨e, hee ▸ he', s, hci⟩
          obtain ⟨m2, hm2⟩ := castRows_error_of_mem _ _ rows1 ⟨r', hr', m1, hm1⟩
          exact ⟨m2, preprocess_error_snd h1 hm2⟩
  · intro df' hok
    cases h1 : castRows "points" castDouble df.rows with
    | error m => rw [preprocess_error_fst h1] at hok; cases hok
    | ok rows1 =>
        cases h2 : castRows "position" castInt rows1 with
        | error m => rw [preprocess_error_snd h1 h2] at hok; cases hok
        | ok rows2 =>
            have hpre : preprocess df = .ok ⟨df.cols, rows2⟩ := by
              simp [preprocess, withColumnCast, h1, h2]
            rw [hpre] at hok
            have hdf : (⟨df.cols, rows2⟩ : DataFrame) = df' := by
              cases hok
              rfl
            subst hdf
            refine ⟨rfl, ?_⟩
            have hf1 := castRows_ok_forall₂ _ _ df.rows rows1 h1
            have hf2 := castRows_ok_forall₂ _ _ rows1 rows2 h2
            exact forall₂_comp
              (fun r r1 r2 hr1 hr2 =>
                forall₂_comp entryRel_of_casts
                  (castRow_ok_forall₂ _ _ r r1 hr1)
                  (castRow_ok_forall₂ _ _ r1 r2 hr2))
              hf1 hf2

theorem preprocess_cast_spec_witness :
    ∃ m, preprocess ⟨["position", "points"],
      [[("position", Value.str "1"), ("points", Value.str "abc")]]⟩ = .error m :=
  (preprocess_cast_spec _).1
    ⟨[("position", Value.str "1"), ("points", Value.str "abc")], by simp,
     ("points", Value.str "abc"), by simp,
     Or.inl ⟨rfl, "abc", rfl, by decide⟩⟩

end HW4
